import Mathlib

/-!
Shallow embedding of the kaitai-based Parquet reader (Go) for verification.

Bytes are modelled as `Nat` (values < 256 wherever the Go code produced them
from a real byte stream).  Machine-integer casts and overflow are made explicit
via `% 2^w` and two's-complement reinterpretation helpers.  Fallible Go
functions returning `(T, error)` are modelled as `Option T` when the partial
result is unused on error, and as `T × Bool` (the `Bool` is `true` iff the Go
error was non-nil) when the Go caller can observe both the partial result and
the error.
-/

namespace KaitaiParquet

/-- Reinterpret the low 64 bits of a natural number as a signed (two's
complement) 64-bit integer, as Go does when a `uint64` pattern is viewed as
`int64`. -/
def toSigned64 (n : Nat) : Int :=
  if n % 2 ^ 64 < 2 ^ 63 then ((n % 2 ^ 64 : Nat) : Int)
  else ((n % 2 ^ 64 : Nat) : Int) - 2 ^ 64

/-- Go `int32(x)` applied to an `int64` value: truncate to the low 32 bits and
reinterpret as signed. -/
def toInt32 (i : Int) : Int :=
  let m := (i % 2 ^ 32 + 2 ^ 32) % 2 ^ 32
  if m < 2 ^ 31 then m else m - 2 ^ 32

/-- Go `int16(x)` applied to a wider value: truncate to the low 16 bits and
reinterpret as signed. -/
def toInt16 (i : Int) : Int :=
  let m := (i % 2 ^ 16 + 2 ^ 16) % 2 ^ 16
  if m < 2 ^ 15 then m else m - 2 ^ 16

/-- Wrapping 64-bit signed reinterpretation of an arbitrary integer (models Go
`int64` addition overflow). -/
def wrap64i (i : Int) : Int :=
  toSigned64 ((i % 2 ^ 64 + 2 ^ 64) % 2 ^ 64).toNat

/-- Go `binary.LittleEndian.Uint32` on the first four bytes of a buffer. -/
def le32 (data : List Nat) : Nat :=
  data.getD 0 0 + (data.getD 1 0) * 2 ^ 8 + (data.getD 2 0) * 2 ^ 16 +
    (data.getD 3 0) * 2 ^ 24

/-- Go `binary.LittleEndian.Uint64` on the first eight bytes of a buffer. -/
def le64 (data : List Nat) : Nat :=
  data.getD 0 0 + (data.getD 1 0) * 2 ^ 8 + (data.getD 2 0) * 2 ^ 16 +
    (data.getD 3 0) * 2 ^ 24 + (data.getD 4 0) * 2 ^ 32 +
    (data.getD 5 0) * 2 ^ 40 + (data.getD 6 0) * 2 ^ 48 + (data.getD 7 0) * 2 ^ 56

/-!
Varint decoders.

`readVarintUnsignedAux` embeds the loop shared by `simpleVarintReader.readVarint`
and `simpleVarintReader.readVarintUnsigned` in `main/delta_decode.go`: base-128
little-endian accumulation; on a continuation byte the shift grows by 7 and the
Go code errors out ("varint too long") once the shift reaches 64.  The result
is `none` on either error (`io.EOF` when the buffer is exhausted, or the
too-long error), and otherwise `some (value, bytesConsumed)`.
-/

def readVarintUnsignedAux : List Nat → Nat → Nat → Option (Nat × Nat)
  | [], _, _ => none
  | b :: rest, shift, result =>
    let result' := (result ||| ((b &&& 0x7f) <<< shift)) % 2 ^ 64
    if b &&& 0x80 = 0 then some (result', 1)
    else if 64 ≤ shift + 7 then none
    else
      match readVarintUnsignedAux rest (shift + 7) result' with
      | none => none
      | some (v, n) => some (v, n + 1)

/-- Function `simpleVarintReader.readVarintUnsigned` from
`main/delta_decode.go`, viewed from the reader's current position. -/
def readVarintUnsigned (bs : List Nat) : Option (Nat × Nat) :=
  readVarintUnsignedAux bs 0 0

/-- Function `simpleVarintReader.readVarint` from `main/delta_decode.go`: decode the
unsigned varint, then `decoded := int64(result >> 1)`, negated when the low bit
of `result` is set. -/
def readVarint (bs : List Nat) : Option (Int × Nat) :=
  match readVarintUnsignedAux bs 0 0 with
  | none => none
  | some (result, n) =>
    let decoded : Int := ((result >>> 1 : Nat) : Int)
    some (if result % 2 = 1 then -decoded else decoded, n)

/-!
The `varint_u` / `varint_z` value instances of `thrift_compact.ksy`.

The kaitai spec collects continuation bytes with `repeat-until` and computes
`value_u` as the sum of the low 7 bits of (at most) the first ten bytes,
shifted by 7 bits each; the arithmetic happens in Go `int` (64-bit, wrapping).
`value` then applies the zigzag formula `(value_u >> 1) ^ (-(value_u & 1))`
with 64-bit two's-complement semantics.
-/

def varintValueU (bs : List Nat) : Nat :=
  ((bs.getD 0 0 &&& 0x7f)
    + (if 1 < bs.length then (bs.getD 1 0 &&& 0x7f) <<< 7 else 0)
    + (if 2 < bs.length then (bs.getD 2 0 &&& 0x7f) <<< 14 else 0)
    + (if 3 < bs.length then (bs.getD 3 0 &&& 0x7f) <<< 21 else 0)
    + (if 4 < bs.length then (bs.getD 4 0 &&& 0x7f) <<< 28 else 0)
    + (if 5 < bs.length then (bs.getD 5 0 &&& 0x7f) <<< 35 else 0)
    + (if 6 < bs.length then (bs.getD 6 0 &&& 0x7f) <<< 42 else 0)
    + (if 7 < bs.length then (bs.getD 7 0 &&& 0x7f) <<< 49 else 0)
    + (if 8 < bs.length then (bs.getD 8 0 &&& 0x7f) <<< 56 else 0)
    + (if 9 < bs.length then (bs.getD 9 0 &&& 0x7f) <<< 63 else 0)) % 2 ^ 64

/-- The `value` instance of `varint_z` in `thrift_compact.ksy`:
`(value_u >> 1) ^ (-(value_u & 1))` over 64-bit two's-complement patterns
(the shift on a signed value is arithmetic, `-(u & 1)` is all-ones when the
low bit is set). -/
def varintValueZ (bs : List Nat) : Int :=
  let u := varintValueU bs
  let sh := (u >>> 1) ||| (if 2 ^ 63 ≤ u then 2 ^ 63 else 0)
  toSigned64 (sh ^^^ (if u % 2 = 1 then 2 ^ 64 - 1 else 0))

/-- Mathematical value of a base-128 little-endian varint over all of its
bytes (7 data bits per byte), with no 64-bit truncation.  This is the
"accumulated value" the spec's overflow rule speaks about. -/
def varintSpecValue : List Nat → Nat
  | [] => 0
  | b :: rest => (b &&& 0x7f) + 2 ^ 7 * varintSpecValue rest

/-!
Go standard library `binary.Uvarint` (used by `main/rle_decoder.go`): returns
`(x, n)` with `n > 0` on success, `n = 0` on truncated input, and `n < 0` on
overflow (an 11th byte, or a terminal 10th byte greater than 1).
-/

def uvarintAux : List Nat → Nat → Nat → Nat → Nat × Int
  | [], _, _, _ => (0, 0)
  | b :: rest, i, s, x =>
    if i = 10 then (0, -11)
    else if b < 0x80 then
      if i = 9 ∧ 1 < b then (0, -10)
      else (x ||| (b <<< s), (i : Int) + 1)
    else uvarintAux rest (i + 1) (s + 7) (x ||| ((b &&& 0x7f) <<< s))

def uvarint (bs : List Nat) : Nat × Int :=
  uvarintAux bs 0 0 0

/-!
Decoded physical column values.  The Go code stores them as `interface{}`
holding `int32`, `int64`, `float32`, `float64` or `string`; floats are kept as
their raw IEEE-754 bit patterns here (`math.Float32frombits` /
`math.Float64frombits` are bit reinterpretations), and Go strings are raw byte
lists.
-/

inductive PValue : Type where
  | i32 (v : Int) : PValue
  | i64 (v : Int) : PValue
  | f32 (bits : Nat) : PValue
  | f64 (bits : Nat) : PValue
  | str (bytes : List Nat) : PValue
deriving DecidableEq, Repr

/-!
`decodePlainValues` from `main/plain_decode.go`.  The loop runs `i` from 0
while `i < numValues && offset < len(data)`; a case whose fixed width does not
fit in the remaining bytes appends nothing and leaves `offset` unchanged (the
loop then idles until `i` reaches `numValues`).  The `default` case returns
the values accumulated so far together with a non-nil error
("unsupported data type").  The fuel of the auxiliary function is the number
of remaining loop iterations (`numValues - i`).
-/

def decodePlainValuesAux (data : List Nat) (dataType : Int) :
    Nat → Nat → List PValue × Bool
  | _, 0 => ([], false)
  | offset, k + 1 =>
    if data.length ≤ offset then ([], false)
    else if dataType = 1 then
      if offset + 4 ≤ data.length then
        let v := toInt32 (le32 ((data.drop offset).take 4))
        let r := decodePlainValuesAux data dataType (offset + 4) k
        (PValue.i32 v :: r.1, r.2)
      else decodePlainValuesAux data dataType offset k
    else if dataType = 2 then
      if offset + 8 ≤ data.length then
        let v := toSigned64 (le64 ((data.drop offset).take 8))
        let r := decodePlainValuesAux data dataType (offset + 8) k
        (PValue.i64 v :: r.1, r.2)
      else decodePlainValuesAux data dataType offset k
    else if dataType = 4 then
      if offset + 4 ≤ data.length then
        let v := le32 ((data.drop offset).take 4)
        let r := decodePlainValuesAux data dataType (offset + 4) k
        (PValue.f32 v :: r.1, r.2)
      else decodePlainValuesAux data dataType offset k
    else if dataType = 5 then
      if offset + 8 ≤ data.length then
        let v := le64 ((data.drop offset).take 8)
        let r := decodePlainValuesAux data dataType (offset + 8) k
        (PValue.f64 v :: r.1, r.2)
      else decodePlainValuesAux data dataType offset k
    else if dataType = 6 then
      if offset + 4 ≤ data.length then
        let len := le32 ((data.drop offset).take 4)
        let offset' := offset + 4
        if offset' + len ≤ data.length then
          let v := PValue.str ((data.drop offset').take len)
          let r := decodePlainValuesAux data dataType (offset' + len) k
          (v :: r.1, r.2)
        else decodePlainValuesAux data dataType offset' k
      else decodePlainValuesAux data dataType offset k
    else ([], true)

/-- Function `decodePlainValues(data, dataType, numValues)`; `numValues` is a Go `int`
(so it may be negative, in which case the loop body never runs). -/
def decodePlainValues (data : List Nat) (dataType : Int) (numValues : Int) :
    List PValue × Bool :=
  decodePlainValuesAux data dataType 0 numValues.toNat

/-!
`decodeDeltaBinaryPacked` from `main/delta_decode.go`: skip three unsigned
header varints, read the first value as a (miscomputed, see `readVarint`)
signed varint, then repeatedly add signed deltas while
`len(values) < numValues && reader.offset < len(data)-1`.  A varint error
inside the loop just breaks out; `currentValue += delta` wraps like Go
`int64` addition.
-/

def deltaLoop (data : List Nat) (numValues : Int) :
    Nat → Nat → Int → List PValue
  | valuesLen, offset, currentValue =>
    if h : (valuesLen : Int) < numValues ∧ offset + 1 < data.length then
      match readVarint (data.drop offset) with
      | none => []
      | some (delta, n) =>
        let cv := wrap64i (currentValue + delta)
        PValue.i64 cv :: deltaLoop data numValues (valuesLen + 1) (offset + n) cv
    else []
termination_by valuesLen _ _ => numValues.toNat - valuesLen
decreasing_by omega

def decodeDeltaBinaryPacked (data : List Nat) (dataType : Int) (numValues : Int) :
    List PValue × Bool :=
  if data.length < 5 then ([], true)
  else
    match readVarintUnsigned data with
    | none => ([], true)
    | some (_, n1) =>
      match readVarintUnsigned (data.drop n1) with
      | none => ([], true)
      | some (_, n2) =>
        match readVarintUnsigned (data.drop (n1 + n2)) with
        | none => ([], true)
        | some (_, n3) =>
          match readVarint (data.drop (n1 + n2 + n3)) with
          | none => ([], true)
          | some (firstValue, n4) =>
            (PValue.i64 firstValue ::
              deltaLoop data numValues 1 (n1 + n2 + n3 + n4) firstValue, false)

/-!
RLE / bit-packed level decoding, `main/rle_decoder.go`.
-/

/-- Function `decodeBitPackedBytes(src, count, bitWidth)`: with `bitWidth == 0` the Go
code returns `make([]byte, count)` (all zeros); otherwise it extracts `count`
LSB-first values of `bitWidth` bits each, possibly spanning two bytes,
breaking out early when the first byte index falls outside `src`. -/
def decodeBitPackedAux (src : List Nat) (bitWidth : Nat) : Nat → Nat → List Nat
  | _, 0 => []
  | i, c + 1 =>
    let byteIndex := i * bitWidth / 8
    let bitIndex := i * bitWidth % 8
    if src.length ≤ byteIndex then []
    else
      let bitsToRead := if 8 - bitIndex < bitWidth then 8 - bitIndex else bitWidth
      let mask := (1 <<< bitsToRead) - 1
      let value := (src.getD byteIndex 0 >>> bitIndex) &&& mask
      let bitsRemaining := bitWidth - bitsToRead
      let value :=
        if 0 < bitsRemaining ∧ byteIndex + 1 < src.length then
          value ||| ((src.getD (byteIndex + 1) 0 &&& ((1 <<< bitsRemaining) - 1)) <<< bitsToRead)
        else value
      value :: decodeBitPackedAux src bitWidth (i + 1) c

def decodeBitPackedBytes (src : List Nat) (count : Nat) (bitWidth : Nat) : List Nat :=
  if bitWidth = 0 then List.replicate count 0
  else decodeBitPackedAux src bitWidth 0 count

/-- RLE-mode run: append `word` up to `count` times, stopping as soon as the
destination already holds `numValues` values (the Go inner loop condition
`k < count && len(dst) < numValues`). -/
def rleAppendN (word : Nat) (numValues : Int) : Nat → List Nat → List Nat
  | 0, dst => dst
  | c + 1, dst =>
    if (dst.length : Int) < numValues then rleAppendN word numValues c (dst ++ [word])
    else dst

/-- Shared block loop of `decodeRLEBytes`: `src` is the not-yet-consumed tail
of the input, `dst` the accumulated output.  Returns the accumulated values
and whether the Go function returned a non-nil error.  The loop condition is
`i < len(src) && len(dst) < numValues`; each iteration consumes at least the
block-header varint (`n ≥ 1` bytes), which grounds the recursion. -/
def decodeRLEBytesAux (numValues : Int) (bitWidth : Nat) (src : List Nat)
    (dst : List Nat) : List Nat × Bool :=
  if hstop : src = [] ∨ ¬((dst.length : Int) < numValues) then (dst, false)
  else
    if hz : (uvarint src).2 = 0 then (dst, true)
    else if hneg : (uvarint src).2 < 0 then (dst, true)
    else
      let rest := src.drop (uvarint src).2.toNat
      let count := (uvarint src).1 >>> 1
      let bitpacked := (uvarint src).1 % 2 = 1
      if 16777216 < count then (dst, true)
      else if bitpacked then
        let count8 := count * 8
        let byteCount := (count8 * bitWidth + 7) / 8
        if rest.length < byteCount then (dst, true)
        else
          decodeRLEBytesAux numValues bitWidth (rest.drop byteCount)
            (dst ++ decodeBitPackedBytes (rest.take byteCount) count8 bitWidth)
      else
        if bitWidth ≠ 0 ∧ rest = [] then (dst, true)
        else
          let word := if bitWidth ≠ 0 then rest.headD 0 else 0
          let rest' := if bitWidth ≠ 0 then rest.drop 1 else rest
          decodeRLEBytesAux numValues bitWidth rest' (rleAppendN word numValues count dst)
termination_by src.length
decreasing_by
  all_goals
    have hne : src ≠ [] := fun h => hstop (Or.inl h)
    have hpos : 0 < src.length := List.length_pos.mpr hne
    have h1 : 1 ≤ (uvarint src).2.toNat := by omega
  · simp only [List.length_drop]
    omega
  · split
    · simp only [List.length_drop]
      omega
    · simp only [List.length_drop]
      omega

/-- Function `decodeRLEBytes(src, numValues, bitWidth)`: fails up front when
`bitWidth > 8`; on success (and only then — the Go error paths return early)
the output is truncated to at most `numValues` values. -/
def decodeRLEBytes (src : List Nat) (numValues : Int) (bitWidth : Nat) :
    List Nat × Bool :=
  if 8 < bitWidth then ([], true)
  else
    let r := decodeRLEBytesAux numValues bitWidth src []
    if r.2 then r
    else (if numValues < (r.1.length : Int) then r.1.take numValues.toNat else r.1, false)

/-- Block loop of `decodeRLEBytesWithOffset`, additionally tracking how many
bytes of the input were consumed.  The Go function's extra mid-loop
`if len(dst) >= numValues break` re-checks the loop-top condition and is
observationally identical to it. -/
def decodeRLEBytesWithOffsetAux (numValues : Int) (bitWidth : Nat) (src : List Nat)
    (dst : List Nat) (bytesRead : Nat) : List Nat × Nat × Bool :=
  if hstop : src = [] ∨ ¬((dst.length : Int) < numValues) then (dst, bytesRead, false)
  else
    if hz : (uvarint src).2 = 0 then (dst, bytesRead, true)
    else if hneg : (uvarint src).2 < 0 then (dst, bytesRead, true)
    else
      let rest := src.drop (uvarint src).2.toNat
      let bytesRead := bytesRead + (uvarint src).2.toNat
      let count := (uvarint src).1 >>> 1
      let bitpacked := (uvarint src).1 % 2 = 1
      if 16777216 < count then (dst, bytesRead, true)
      else if bitpacked then
        let count8 := count * 8
        let byteCount := (count8 * bitWidth + 7) / 8
        if rest.length < byteCount then (dst, bytesRead, true)
        else
          decodeRLEBytesWithOffsetAux numValues bitWidth (rest.drop byteCount)
            (dst ++ decodeBitPackedBytes (rest.take byteCount) count8 bitWidth)
            (bytesRead + byteCount)
      else
        if bitWidth ≠ 0 ∧ rest = [] then (dst, bytesRead, true)
        else
          let word := if bitWidth ≠ 0 then rest.headD 0 else 0
          let rest' := if bitWidth ≠ 0 then rest.drop 1 else rest
          let bytesRead := if bitWidth ≠ 0 then bytesRead + 1 else bytesRead
          decodeRLEBytesWithOffsetAux numValues bitWidth rest'
            (rleAppendN word numValues count dst) bytesRead
termination_by src.length
decreasing_by
  all_goals
    have hne : src ≠ [] := fun h => hstop (Or.inl h)
    have hpos : 0 < src.length := List.length_pos.mpr hne
    have h1 : 1 ≤ (uvarint src).2.toNat := by omega
  · simp only [List.length_drop]
    omega
  · split
    · simp only [List.length_drop]
      omega
    · simp only [List.length_drop]
      omega

/-- Function `decodeRLEBytesWithOffset(src, numValues, bitWidth)` returning
`(values, bytesRead, error?)`. -/
def decodeRLEBytesWithOffset (src : List Nat) (numValues : Int) (bitWidth : Nat) :
    List Nat × Nat × Bool :=
  if 8 < bitWidth then ([], 0, true)
  else
    let r := decodeRLEBytesWithOffsetAux numValues bitWidth src [] 0
    if r.2.2 then r
    else
      (if numValues < (r.1.length : Int) then r.1.take numValues.toNat else r.1,
        r.2.1, false)

/-- Function `decodeRLELevels(data, numValues, bitWidth)`: a 4-byte little-endian
length prefix delimits the encoded section; on any failure the Go function
returns `(nil, data, err)` — modelled as `none` (the caller keeps its
original buffer).  On success it returns the levels and the bytes after the
encoded section. -/
def decodeRLELevels (data : List Nat) (numValues : Int) (bitWidth : Nat) :
    Option (List Nat × List Nat) :=
  if data.length < 4 then none
  else
    let encodedLength := le32 (data.take 4)
    if data.length < 4 + encodedLength then none
    else
      let encodedData := (data.drop 4).take encodedLength
      match decodeRLEBytes encodedData numValues bitWidth with
      | (_, true) => none
      | (levels, false) => some (levels, data.drop (4 + encodedLength))

/-!
Data-page level stripping and value-decoder dispatch,
`parseDataPageWithEncoding` in `main/page_decode.go`.  The function mutates a
local `pageData` cursor: a speculative repetition-level strip (only when the
schema's repetition type is REPEATED = 2), then a definition-level strip.
`repStage` and `defStage` are those two blocks verbatim; the value decoder
then runs on their output.
-/

def repStage (data : List Nat) (numValues : Int) (repetitionType : Option Int) :
    List Nat :=
  if repetitionType = some 2 then
    match decodeRLELevels data numValues 1 with
    | some (_, remaining) => remaining
    | none => data
  else data

def levelsAllValid (levels : List Nat) (maxDefinitionLevel : Nat) : Bool :=
  levels.all (· ≤ maxDefinitionLevel)

def defStage (data : List Nat) (numValues : Int) (repetitionType : Option Int)
    (maxDefinitionLevel : Nat) : List Nat :=
  if repetitionType = some 0 then
    match decodeRLELevels data numValues 1 with
    | some (defLevels, remaining) => if defLevels ≠ [] then remaining else data
    | none => data
  else if 0 < maxDefinitionLevel then
    if 4 ≤ data.length then
      let encodedLength := le32 (data.take 4)
      if 0 < encodedLength ∧ encodedLength < data.length ∧ encodedLength < 10000 then
        match decodeRLELevels data numValues maxDefinitionLevel with
        | some (defLevels, remaining) =>
          if defLevels ≠ [] ∧ levelsAllValid defLevels maxDefinitionLevel then remaining
          else data
        | none => data
      else
        let r := decodeRLEBytesWithOffset data numValues maxDefinitionLevel
        if r.2.2 = false ∧ r.1 ≠ [] ∧ (r.1.length : Int) ≤ numValues + 10 ∧
            levelsAllValid r.1 maxDefinitionLevel ∧ 0 < r.2.1 ∧ r.2.1 < data.length
        then data.drop r.2.1
        else data
    else data
  else data

/-- The buffer handed to the value decoder after both speculative level
strips. -/
def stripLevels (data : List Nat) (numValues : Int) (repetitionType : Option Int)
    (maxDefinitionLevel : Nat) : List Nat :=
  defStage (repStage data numValues repetitionType) numValues repetitionType
    maxDefinitionLevel

/-- Function `parseDataPageWithEncoding(data, dataType, encoding, numValues,
repetitionType, maxDefinitionLevel)`: strip levels, then dispatch on the
encoding — PLAIN (0), DELTA_BINARY_PACKED (5), and a `default` arm that also
calls the PLAIN decoder. -/
def parseDataPageWithEncoding (data : List Nat) (dataType : Int) (encoding : Int)
    (numValues : Int) (repetitionType : Option Int) (maxDefinitionLevel : Nat) :
    List PValue × Bool :=
  let pageData := stripLevels data numValues repetitionType maxDefinitionLevel
  if encoding = 0 then decodePlainValues pageData dataType numValues
  else if encoding = 5 then decodeDeltaBinaryPacked pageData dataType numValues
  else decodePlainValues pageData dataType numValues

/-- Acceptance condition of the repetition-level attempt in
`parseDataPageWithEncoding` (the buffer advances only when it holds). -/
def repAccepted (data : List Nat) (numValues : Int)
    (repetitionType : Option Int) : Bool :=
  repetitionType = some 2 ∧ (decodeRLELevels data numValues 1).isSome

/-- Acceptance condition of the definition-level attempt in
`parseDataPageWithEncoding` (the buffer advances only when it holds). -/
def defAccepted (data : List Nat) (numValues : Int) (repetitionType : Option Int)
    (maxDefinitionLevel : Nat) : Bool :=
  if repetitionType = some 0 then
    match decodeRLELevels data numValues 1 with
    | some (defLevels, _) => defLevels ≠ []
    | none => false
  else if 0 < maxDefinitionLevel ∧ 4 ≤ data.length then
    let encodedLength := le32 (data.take 4)
    if 0 < encodedLength ∧ encodedLength < data.length ∧ encodedLength < 10000 then
      match decodeRLELevels data numValues maxDefinitionLevel with
      | some (defLevels, _) => defLevels ≠ [] ∧ levelsAllValid defLevels maxDefinitionLevel
      | none => false
    else
      let r := decodeRLEBytesWithOffset data numValues maxDefinitionLevel
      r.2.2 = false ∧ r.1 ≠ [] ∧ (r.1.length : Int) ≤ numValues + 10 ∧
        levelsAllValid r.1 maxDefinitionLevel ∧ 0 < r.2.1 ∧ r.2.1 < data.length
  else false

/-!
The Thrift Compact Protocol AST produced by the kaitai-generated parser
(`thrift_compact.ksy` → `kaitai_gen/thrift_compact.go`).

The generated `CompactValue` Go struct holds one optional pointer per wire
type (`ByteValue`, `I16Value`, `I32Value`, `I64Value`, `DoubleValue`,
`BinaryValue`, `ListValue`, `SetValue`, `MapValue`, `StructValue`); the
parser sets exactly the pointer selected by the `value_type` parameter, and
none at all for the boolean wire types (1/2) whose value is carried by the
type itself, or when `value_type` matches no case.  We model this as a sum
with one constructor per pointer plus `nopayload` for the all-nil case, and
accessor functions mirroring the Go nil checks.  Varint payloads are kept as
their raw byte sequences (the kaitai `bytes` field); their `value_u`/`value`
instances are `varintValueU`/`varintValueZ`.  A nil `*CompactValue` (the Go
`thriftField.Val` of a STOP record) is also `nopayload`: every consumer
distinguishes only "the expected pointer is set" from "it is not".
-/

mutual
inductive CompactValue : Type where
  | nopayload : CompactValue
  | byteV (v : Int) : CompactValue
  | i16V (bs : List Nat) : CompactValue
  | i32V (bs : List Nat) : CompactValue
  | i64V (bs : List Nat) : CompactValue
  | doubleV (bits : Nat) : CompactValue
  | binaryV (raw : List Nat) : CompactValue
  | listV (listHeader : Nat) (extendedSize : Option (List Nat))
      (elements : List CompactValue) : CompactValue
  | setV (listHeader : Nat) (extendedSize : Option (List Nat))
      (elements : List CompactValue) : CompactValue
  | mapV (sizeBytes : List Nat) (typeByte : Option Nat)
      (entries : List CompactValue) : CompactValue
  | structV (fields : List CompactField) : CompactValue
inductive CompactField : Type where
  | mk (fieldHeader : Nat) (extendedDelta : Option (List Nat))
      (value : CompactValue) : CompactField
end

/-- Record `thriftField` built by `thriftFields` in
`main/thrift_compact_decode.go`: resolved id (`int16`), wire type (`uint8`),
and the raw value. -/
structure ThriftField where
  id : Int
  type : Nat
  val : CompactValue

/-- Function `thriftFields`: walk the parsed fields until the STOP record, resolving
each field id either as `previous id + short delta` (high nibble ≠ 0) or as
the absolute zigzag-varint extended delta (high nibble = 0); the running
previous id is updated to the resolved id in both cases.  All arithmetic is
Go `int16`.  Returns `none` when a field with high nibble 0 has no extended
delta (the Go "extended delta missing" error). -/
def thriftFieldsAux : Int → List CompactField → Option (List ThriftField)
  | _, [] => some []
  | prevID, .mk header ext v :: rest =>
    if header = 0 then some []
    else
      let ft := header &&& 0xF
      let dShort := (header >>> 4) &&& 0xF
      let idOpt : Option Int :=
        if dShort = 0 then
          match ext with
          | none => none
          | some bs => some (toInt16 (varintValueZ bs))
        else some (toInt16 (prevID + dShort))
      match idOpt with
      | none => none
      | some id =>
        match thriftFieldsAux id rest with
        | none => none
        | some out => some (⟨id, ft, v⟩ :: out)

def thriftFields (fields : List CompactField) : Option (List ThriftField) :=
  thriftFieldsAux 0 fields

/-!
The `thriftI32` / `thriftI64` / `thriftString` / `thriftStruct` / `thriftList`
accessors.  In Go each returns an additional `error` from the kaitai `Value()`
getter; that getter only re-computes the pure `value` instance of an
already-parsed varint and cannot fail, so the error results are always nil
and the model drops them.  `ok = false` (pointer nil / wrong variant) maps to
`none`. -/

def thriftI32 (v : CompactValue) : Option Int :=
  match v with
  | .i32V bs => some (toInt32 (varintValueZ bs))
  | _ => none

def thriftI64 (v : CompactValue) : Option Int :=
  match v with
  | .i64V bs => some (varintValueZ bs)
  | _ => none

def thriftString (v : CompactValue) : Option (List Nat) :=
  match v with
  | .binaryV raw => some raw
  | _ => none

def thriftStruct (v : CompactValue) : Option (List CompactField) :=
  match v with
  | .structV fs => some fs
  | _ => none

/-- Accessor `thriftList` accepts either a list or a set value (the Go function checks
`ListValue` first, then `SetValue`); callers only use the `Elements` slice. -/
def thriftList (v : CompactValue) : Option (List CompactValue) :=
  match v with
  | .listV _ _ es => some es
  | .setV _ _ es => some es
  | _ => none

/-!
The typed metadata model of `main/parquet_types.go` (restricted to the fields
the decoders populate or read; Go strings are raw byte lists).  Defaults are
the Go zero values.
-/

structure SchemaElement where
  type : Int := 0
  typeLength : Option Int := none
  repetitionType : Option Int := none
  name : List Nat := []
  numChildren : Option Int := none
  convertedType : Option Int := none
  scale : Option Int := none
  precision : Option Int := none
  fieldID : Option Int := none
deriving DecidableEq, Repr

structure ColumnMetaData where
  type : Int := 0
  encodings : List Int := []
  pathInSchema : List (List Nat) := []
  codec : Int := 0
  numValues : Int := 0
  totalUncompressedSize : Int := 0
  totalCompressedSize : Int := 0
  dataPageOffset : Int := 0
  dictionaryPageOffset : Option Int := none
deriving DecidableEq, Repr

structure ColumnChunk where
  filePath : List (List Nat) := []
  fileOffset : Int := 0
  metaData : Option ColumnMetaData := none
deriving DecidableEq, Repr

structure RowGroup where
  columns : List ColumnChunk := []
  totalByteSize : Int := 0
  numRows : Int := 0
  fileOffset : Int := 0
  totalCompressedSize : Int := 0
deriving DecidableEq, Repr

structure FileMetadata where
  version : Int := 0
  schema : List SchemaElement := []
  numRows : Int := 0
  rowGroups : List RowGroup := []
deriving DecidableEq, Repr

/-!
The metadata mappers of `main/thrift_compact_decode.go`.  Each walks the
resolved field list by id; fields whose accessor reports `ok = false`
(missing pointer / unexpected wire type) are skipped, unknown ids are
ignored, and the only failure mode is an error from `thriftFields`
(propagated from nested structs where applicable).
-/

def decodeSchemaElement (st : List CompactField) : Option SchemaElement :=
  match thriftFields st with
  | none => none
  | some fields =>
    some (fields.foldl (fun (out : SchemaElement) (f : ThriftField) =>
      if f.id = 1 then
        match thriftI32 f.val with
        | some v => { out with type := v }
        | none => out
      else if f.id = 2 then
        match thriftI32 f.val with
        | some v => { out with typeLength := some v }
        | none => out
      else if f.id = 3 then
        match thriftI32 f.val with
        | some v => { out with repetitionType := some v }
        | none => out
      else if f.id = 4 then
        match thriftString f.val with
        | some s => { out with name := s }
        | none => out
      else if f.id = 5 then
        match thriftI32 f.val with
        | some v => { out with numChildren := some v }
        | none => out
      else if f.id = 6 then
        match thriftI32 f.val with
        | some v => { out with convertedType := some v }
        | none => out
      else if f.id = 7 then
        match thriftI32 f.val with
        | some v => { out with scale := some v }
        | none => out
      else if f.id = 8 then
        match thriftI32 f.val with
        | some v => { out with precision := some v }
        | none => out
      else if f.id = 9 then
        match thriftI32 f.val with
        | some v => { out with fieldID := some v }
        | none => out
      else out) {})

def decodeColumnMetaData (st : List CompactField) : Option ColumnMetaData :=
  match thriftFields st with
  | none => none
  | some fields =>
    some (fields.foldl (fun (out : ColumnMetaData) (f : ThriftField) =>
      if f.id = 1 then
        match thriftI32 f.val with
        | some v => { out with type := v }
        | none => out
      else if f.id = 2 then
        match thriftList f.val with
        | some elems => { out with encodings := out.encodings ++ elems.filterMap thriftI32 }
        | none => out
      else if f.id = 3 then
        match thriftList f.val with
        | some elems =>
          { out with pathInSchema := out.pathInSchema ++ elems.filterMap thriftString }
        | none => out
      else if f.id = 4 then
        match thriftI32 f.val with
        | some v => { out with codec := v }
        | none => out
      else if f.id = 5 then
        match thriftI64 f.val with
        | some v => { out with numValues := v }
        | none => out
      else if f.id = 6 then
        match thriftI64 f.val with
        | some v => { out with totalUncompressedSize := v }
        | none => out
      else if f.id = 7 then
        match thriftI64 f.val with
        | some v => { out with totalCompressedSize := v }
        | none => out
      else if f.id = 9 then
        match thriftI64 f.val with
        | some v => { out with dataPageOffset := v }
        | none => out
      else if f.id = 11 then
        match thriftI64 f.val with
        | some v => { out with dictionaryPageOffset := some v }
        | none => out
      else out) {})

def decodeColumnChunk (st : List CompactField) : Option ColumnChunk :=
  match thriftFields st with
  | none => none
  | some fields =>
    fields.foldlM (fun (out : ColumnChunk) (f : ThriftField) =>
      if f.id = 1 then
        match thriftString f.val with
        | some s => some (if s ≠ [] then { out with filePath := [s] } else out)
        | none => some out
      else if f.id = 2 then
        match thriftI64 f.val with
        | some v => some { out with fileOffset := v }
        | none => some out
      else if f.id = 3 then
        match thriftStruct f.val with
        | some sst =>
          match decodeColumnMetaData sst with
          | none => none
          | some md => some { out with metaData := some md }
        | none => some out
      else some out) {}

def decodeRowGroup (st : List CompactField) : Option RowGroup :=
  match thriftFields st with
  | none => none
  | some fields =>
    fields.foldlM (fun (out : RowGroup) (f : ThriftField) =>
      if f.id = 1 then
        match thriftList f.val with
        | some elems =>
          (elems.foldlM (fun (cols : List ColumnChunk) elem =>
            match thriftStruct elem with
            | some cst =>
              match decodeColumnChunk cst with
              | none => none
              | some cc => some (cols ++ [cc])
            | none => some cols) out.columns).map
            (fun cols => { out with columns := cols })
        | none => some out
      else if f.id = 2 then
        match thriftI64 f.val with
        | some v => some { out with totalByteSize := v }
        | none => some out
      else if f.id = 3 then
        match thriftI64 f.val with
        | some v => some { out with numRows := v }
        | none => some out
      else if f.id = 5 then
        match thriftI64 f.val with
        | some v => some { out with fileOffset := v }
        | none => some out
      else if f.id = 6 then
        match thriftI64 f.val with
        | some v => some { out with totalCompressedSize := v }
        | none => some out
      else some out) {}

def decodeFileMetaData (st : List CompactField) : Option FileMetadata :=
  match thriftFields st with
  | none => none
  | some fields =>
    fields.foldlM (fun (out : FileMetadata) (f : ThriftField) =>
      if f.id = 1 then
        match thriftI32 f.val with
        | some v => some { out with version := v }
        | none => some out
      else if f.id = 2 then
        match thriftList f.val with
        | some elems =>
          (elems.foldlM (fun (sch : List SchemaElement) elem =>
            match thriftStruct elem with
            | some sst =>
              match decodeSchemaElement sst with
              | none => none
              | some se => some (sch ++ [se])
            | none => some sch) out.schema).map
            (fun sch => { out with schema := sch })
        | none => some out
      else if f.id = 3 then
        match thriftI64 f.val with
        | some v => some { out with numRows := v }
        | none => some out
      else if f.id = 4 then
        match thriftList f.val with
        | some elems =>
          (elems.foldlM (fun (rgs : List RowGroup) elem =>
            match thriftStruct elem with
            | some rst =>
              match decodeRowGroup rst with
              | none => none
              | some rg => some (rgs ++ [rg])
            | none => some rgs) out.rowGroups).map
            (fun rgs => { out with rowGroups := rgs })
        | none => some out
      else some out) {}

/-- Function `decodePageHeader`: fixed-field-id interpretation of a page-header struct,
returning `(pageType, uncompressedSize, compressedSize, numValues, encoding)`.
Field 5 is the nested data-page-header struct with 1 = `num_values`
(an i32, widened to the Go `int64` result) and 2 = `encoding`.  All results
default to 0 when the corresponding field is absent. -/
def decodePageHeader (st : List CompactField) :
    Option (Int × Int × Int × Int × Int) :=
  match thriftFields st with
  | none => none
  | some fields =>
    fields.foldlM (fun (acc : Int × Int × Int × Int × Int) (f : ThriftField) =>
      if f.id = 1 then
        match thriftI32 f.val with
        | some v => some (v, acc.2.1, acc.2.2.1, acc.2.2.2.1, acc.2.2.2.2)
        | none => some acc
      else if f.id = 2 then
        match thriftI32 f.val with
        | some v => some (acc.1, v, acc.2.2.1, acc.2.2.2.1, acc.2.2.2.2)
        | none => some acc
      else if f.id = 3 then
        match thriftI32 f.val with
        | some v => some (acc.1, acc.2.1, v, acc.2.2.2.1, acc.2.2.2.2)
        | none => some acc
      else if f.id = 5 then
        match thriftStruct f.val with
        | some dphSt =>
          match thriftFields dphSt with
          | none => none
          | some dFields =>
            some (dFields.foldl (fun (a : Int × Int × Int × Int × Int) (df : ThriftField) =>
              if df.id = 1 then
                match thriftI32 df.val with
                | some v => (a.1, a.2.1, a.2.2.1, v, a.2.2.2.2)
                | none => a
              else if df.id = 2 then
                match thriftI32 df.val with
                | some v => (a.1, a.2.1, a.2.2.1, a.2.2.2.1, v)
                | none => a
              else a) acc)
        | none => some acc
      else some acc) (0, 0, 0, 0, 0)

/-!
Compression dispatch and the column page reader,
`decompressData` (compress.go) and `readColumnValues`
(`main/thrift_compact_decode.go`).

`decompressData` dispatches on the codec id: 0 = store (identity), 1 = Snappy
(the external `klauspost/compress/snappy` library, modelled as an opaque
parameter `snappy` since it is not part of this repository), anything else is
an "unsupported compression codec" error.

`readColumnValues` interacts with the file through a buffered section reader:
per loop iteration it (a) peeks/retries a Thrift Compact struct parse for the
page header and interprets it via `decodePageHeader`, then (b) reads up to
`compressed_page_size` body bytes.  That IO layer is abstracted into a
`PageItem` stream: `.page h body` is one successfully parsed header (already
interpreted as the five-tuple `decodePageHeader` produces) together with the
body bytes the read returned (a short read simply yields a shorter `body`),
and `.fail` stands for an iteration whose header parse or header
interpretation failed (both `break` identically in the Go loop, as does
stream exhaustion `[]`).
-/

def decompressData (snappy : List Nat → Option (List Nat)) (data : List Nat)
    (codec : Int) : Option (List Nat) :=
  if codec = 0 then some data
  else if codec = 1 then snappy data
  else none

structure PageHeader where
  pageType : Int
  uncompressedSize : Int
  compressedSize : Int
  numValues : Int
  encoding : Int
deriving DecidableEq, Repr

inductive PageItem : Type where
  | fail : PageItem
  | page (header : PageHeader) (body : List Nat) : PageItem
deriving DecidableEq, Repr

/-- Body of one DATA_PAGE iteration of `readColumnValues`: apply the
`num_values == 0` and `encoding == 0` fallbacks from the chunk metadata, read
`compressed_page_size` bytes, decompress (falling back to the raw bytes when
decompression fails), derive the maximum definition level from the schema
repetition type (1 for both REQUIRED = 0 and OPTIONAL = 1), and decode the
page. -/
def pageBatch (snappy : List Nat → Option (List Nat)) (meta : ColumnMetaData)
    (schema : SchemaElement) (h : PageHeader) (body : List Nat) :
    List PValue × Bool :=
  let numValues := if h.numValues = 0 then meta.numValues else h.numValues
  let encoding :=
    if h.encoding = 0 ∧ meta.encodings ≠ [] then meta.encodings.headD 0
    else h.encoding
  let compressedData := body.take h.compressedSize.toNat
  let pageData :=
    match decompressData snappy compressedData meta.codec with
    | some d => d
    | none => compressedData
  let maxDefinitionLevel : Nat :=
    if schema.repetitionType = some 0 then 1
    else if schema.repetitionType = some 1 then 1
    else 0
  parseDataPageWithEncoding pageData schema.type encoding numValues
    schema.repetitionType maxDefinitionLevel

/-- Value-accumulation step for one page of `readColumnValues`: a DATA_PAGE
(type 0) whose decode returned no error and at least one value appends its
batch to the accumulator and adds the batch size to the running count; any
other page leaves both unchanged. -/
def pageStep (snappy : List Nat → Option (List Nat)) (meta : ColumnMetaData)
    (schema : SchemaElement) (h : PageHeader) (body : List Nat)
    (values : List PValue) (totalValuesRead : Int) : List PValue × Int :=
  if h.pageType = 0 then
    let r := pageBatch snappy meta schema h body
    if r.2 = false ∧ r.1 ≠ [] then
      (values ++ r.1, totalValuesRead + r.1.length)
    else (values, totalValuesRead)
  else (values, totalValuesRead)

/-- The page loop of `readColumnValues`: runs while `pagesRead < 100` and
`totalValuesRead < chunk num_values`; a header failure or stream end breaks;
`compressed_page_size <= 0` breaks; non-DATA_PAGE pages contribute nothing;
a DATA_PAGE batch is appended only when its decode returned no error and at
least one value (a failed page decode does NOT break the loop); after each
page the loop re-checks the accumulated count. -/
def readColumnLoop (snappy : List Nat → Option (List Nat)) (meta : ColumnMetaData)
    (schema : SchemaElement) (stream : List PageItem) (pagesRead : Nat)
    (totalValuesRead : Int) (values : List PValue) : List PValue :=
  if pagesRead < 100 ∧ totalValuesRead < meta.numValues then
    match stream with
    | [] => values
    | .fail :: _ => values
    | .page h body :: rest =>
      if h.compressedSize ≤ 0 then values
      else
        let step := pageStep snappy meta schema h body values totalValuesRead
        if meta.numValues ≤ step.2 then step.1
        else readColumnLoop snappy meta schema rest (pagesRead + 1) step.2 step.1
  else values

/-- Function `readColumnValues(file, chunk, schema)`: errors (the only surfaced error)
when the chunk has no metadata; otherwise runs the page loop from an empty
accumulator and always returns the accumulated values with a nil error. -/
def readColumnValues (snappy : List Nat → Option (List Nat)) (chunk : ColumnChunk)
    (schema : SchemaElement) (stream : List PageItem) : Option (List PValue) :=
  match chunk.metaData with
  | none => none
  | some meta => some (readColumnLoop snappy meta schema stream 0 0 [])

/-- The header-fallback rule of `readColumnValues` as the spec sentence states
it: a zero `num_values` is replaced by the chunk total, a zero (PLAIN)
encoding by the first encoding listed in the chunk metadata when that list is
non-empty. -/
def adjustHeader (meta : ColumnMetaData) (h : PageHeader) : PageHeader :=
  { h with
    numValues := if h.numValues = 0 then meta.numValues else h.numValues,
    encoding :=
      if h.encoding = 0 ∧ meta.encodings ≠ [] then meta.encodings.headD 0
      else h.encoding }

def CompactField.fieldHeader : CompactField → Nat
  | .mk h _ _ => h

def CompactField.extendedDelta : CompactField → Option (List Nat)
  | .mk _ e _ => e

/-- Field-id assignment exactly as the specification words it: reading stops
at a zero header byte; a header with nonzero high nibble yields
`previous id + high nibble`; a header with high nibble 0 takes its absolute
id from the following zigzag varint, and the running previous-id counter is
updated to the resolved id in both cases (ids live in `int16`). -/
def specFieldIds : Int → List (Nat × Option (List Nat)) → List Int
  | _, [] => []
  | prev, (header, ext) :: rest =>
    if header = 0 then []
    else
      let nib := (header >>> 4) &&& 0xF
      if nib = 0 then
        match ext with
        | some bs =>
          let a := toInt16 (varintValueZ bs)
          a :: specFieldIds a rest
        | none => []
      else
        let idv := toInt16 (prev + nib)
        idv :: specFieldIds idv rest

/-!
Claim theorems.
-/

/-- C1 (counterexample): a data page whose encoding enum is 8
(RLE_DICTIONARY) — neither PLAIN (0) nor DELTA_BINARY_PACKED (5) — decodes
with NO error and produces a value: the `default` arm of
`parseDataPageWithEncoding` falls back to the PLAIN decoder instead of
failing. -/
theorem C1_counterexample :
    parseDataPageWithEncoding [1, 0, 0, 0] 1 8 1 none 0 = ([PValue.i32 1], false) := by
  decide

/-- C1 (amended): for every encoding other than PLAIN (0) and
DELTA_BINARY_PACKED (5), `parseDataPageWithEncoding` does not error by
policy — it decodes the page with the PLAIN decoder (after the usual level
stripping), so an error arises only if that PLAIN decode itself reports one
(an unsupported physical data type with data and a positive count). -/
theorem C1_amended (data : List Nat) (dataType encoding numValues : Int)
    (repetitionType : Option Int) (maxDefinitionLevel : Nat)
    (h0 : encoding ≠ 0) (h5 : encoding ≠ 5) :
    parseDataPageWithEncoding data dataType encoding numValues repetitionType
        maxDefinitionLevel
      = decodePlainValues
          (stripLevels data numValues repetitionType maxDefinitionLevel)
          dataType numValues := by
  simp [parseDataPageWithEncoding, h0, h5]

theorem C1_amended_witness :
    parseDataPageWithEncoding [1, 0, 0, 0] 1 8 1 none 0
      = decodePlainValues (stripLevels [1, 0, 0, 0] 1 none 0) 1 1 :=
  C1_amended [1, 0, 0, 0] 1 8 1 none 0 (by decide) (by decide)

/-- C2 (counterexample): a SchemaElement struct whose field id 1 (`type`,
expected wire type i32) arrives with wire type 8 (binary) is decoded with no
error at all: the mismatched field is silently skipped (`ok = false` from the
accessor) and the mapper returns the zero-valued element — there is no
`FieldTypeMismatch` failure anywhere in the code. -/
theorem C2_counterexample :
    decodeSchemaElement [CompactField.mk 0x18 none (CompactValue.binaryV [120])]
      = some {} := by
  decide

/-- C2 (amended): the metadata mappers never fail because of a wire-type
mismatch; a field whose declared wire type does not match the expected
logical type for its id is silently ignored (left at its zero value), and
the only failure mode of `decodeSchemaElement` / `decodeColumnMetaData` is a
field-list extraction error from `thriftFields` (a missing extended delta). -/
theorem C2_amended (st : List CompactField) :
    ((decodeSchemaElement st).isSome ↔ (thriftFields st).isSome)
      ∧ ((decodeColumnMetaData st).isSome ↔ (thriftFields st).isSome) := by
  unfold decodeSchemaElement decodeColumnMetaData
  cases thriftFields st <;> simp

/-- C5: the two zigzag decoders in the repository disagree, so the claimed
formula cannot hold for both.  On the single byte `0x01` (unsigned varint
`u = 1`, the zigzag encoding of `-1`): the kaitai `varint_z` value instance
computes `(u >> 1) XOR -(u & 1) = -1` as the claim states, but the delta
decoder's `readVarint` computes `int64(u >> 1)` and then merely negates it,
returning `0`. -/
theorem C5_zigzag_divergence :
    readVarint [0x01] = some (0, 1) ∧ varintValueZ [0x01] = -1 := by
  decide

/-- C6 (counterexample): the ten-byte varint `80 80 80 80 80 80 80 80 80 02`
encodes the value `2^64` — its accumulated value overflows 64 bits — yet
`readVarintUnsigned` returns the silently truncated value `0` with NO error,
because the shifted-out bits are simply discarded. -/
theorem C6_counterexample :
    varintSpecValue [0x80, 0x80, 0x80, 0x80, 0x80, 0x80, 0x80, 0x80, 0x80, 0x02]
        = 2 ^ 64
      ∧ readVarintUnsigned
          [0x80, 0x80, 0x80, 0x80, 0x80, 0x80, 0x80, 0x80, 0x80, 0x02]
        = some (0, 10) := by
  decide

/-- C6 (amended): the Go varint readers detect "overflow" only through the
shift counter: a varint whose first ten bytes all carry the continuation bit
(so an 11th byte would be needed) fails; value bits shifted past bit 63
within ten bytes are silently dropped without an error. -/
theorem C6_amended (b0 b1 b2 b3 b4 b5 b6 b7 b8 b9 : Nat) (rest : List Nat)
    (h0 : b0 &&& 0x80 ≠ 0) (h1 : b1 &&& 0x80 ≠ 0) (h2 : b2 &&& 0x80 ≠ 0)
    (h3 : b3 &&& 0x80 ≠ 0) (h4 : b4 &&& 0x80 ≠ 0) (h5 : b5 &&& 0x80 ≠ 0)
    (h6 : b6 &&& 0x80 ≠ 0) (h7 : b7 &&& 0x80 ≠ 0) (h8 : b8 &&& 0x80 ≠ 0)
    (h9 : b9 &&& 0x80 ≠ 0) :
    readVarintUnsigned
        (b0 :: b1 :: b2 :: b3 :: b4 :: b5 :: b6 :: b7 :: b8 :: b9 :: rest)
      = none := by
  simp [readVarintUnsigned, readVarintUnsignedAux, h0, h1, h2, h3, h4, h5, h6,
    h7, h8, h9]

theorem C6_amended_witness :
    readVarintUnsigned
        [0x80, 0x80, 0x80, 0x80, 0x80, 0x80, 0x80, 0x80, 0x80, 0x80]
      = none :=
  C6_amended 0x80 0x80 0x80 0x80 0x80 0x80 0x80 0x80 0x80 0x80 []
    (by decide) (by decide) (by decide) (by decide) (by decide) (by decide)
    (by decide) (by decide) (by decide) (by decide)

/-- The ids resolved by `thriftFieldsAux` follow the spec's field-id rules
for any starting previous id. -/
theorem thriftFieldsAux_map_id :
    ∀ (fields : List CompactField) (prev : Int) (tfs : List ThriftField),
      thriftFieldsAux prev fields = some tfs →
      tfs.map ThriftField.id
        = specFieldIds prev (fields.map fun f => (f.fieldHeader, f.extendedDelta)) := by
  intro fields
  induction fields with
  | nil =>
    intro prev tfs h
    simp only [thriftFieldsAux, Option.some.injEq] at h
    subst h
    simp [specFieldIds]
  | cons f rest ih =>
    intro prev tfs h
    obtain ⟨header, ext, v⟩ := f
    simp only [thriftFieldsAux] at h
    by_cases hh : header = 0
    · rw [if_pos hh] at h
      cases h
      simp [specFieldIds, CompactField.fieldHeader, CompactField.extendedDelta, hh]
    · rw [if_neg hh] at h
      split at h
      · exact absurd h (by simp)
      · rename_i id hid
        split at h
        · exact absurd h (by simp)
        · rename_i out hrec
          cases h
          simp only [List.map_cons, CompactField.fieldHeader, CompactField.extendedDelta]
          rw [specFieldIds.eq_def]
          simp only [if_neg hh]
          by_cases hnib : (header >>> 4) &&& 0xF = 0
          · rw [if_pos hnib] at hid
            rw [if_pos hnib]
            cases ext with
            | none => simp at hid
            | some bs =>
              simp only [Option.some.injEq] at hid
              subst hid
              exact congrArg _ (ih _ _ hrec)
          · rw [if_neg hnib] at hid
            rw [if_neg hnib]
            simp only [Option.some.injEq] at hid
            subst hid
            exact congrArg _ (ih _ _ hrec)

/-- C7: field-id resolution in `thriftFields`.  General part: for every
struct whose field extraction succeeds, the resolved ids are exactly the
spec's field-id rules applied to the raw header nibbles and extended-delta
varints (nonzero high nibble adds to the running previous id; high nibble 0
takes the absolute id from the zigzag varint; the previous-id counter is
updated to the resolved id in both cases).  Concrete parts: short deltas 3
then 5 resolve to ids 3 and 8, and an extended absolute id 20 followed by a
short delta 2 resolves to ids 20 and 22. -/
theorem C7_field_ids :
    (∀ (fields : List CompactField) (tfs : List ThriftField),
        thriftFields fields = some tfs →
        tfs.map ThriftField.id
          = specFieldIds 0 (fields.map fun f => (f.fieldHeader, f.extendedDelta)))
    ∧ (thriftFields [CompactField.mk 0x35 none .nopayload,
          CompactField.mk 0x55 none .nopayload]).map (List.map ThriftField.id)
        = some [3, 8]
    ∧ (thriftFields [CompactField.mk 0x05 (some [0x28]) .nopayload,
          CompactField.mk 0x25 none .nopayload]).map (List.map ThriftField.id)
        = some [20, 22] := by
  refine ⟨fun fields tfs h => thriftFieldsAux_map_id fields 0 tfs h, ?_, ?_⟩
  · rfl
  · rfl

theorem C7_field_ids_witness :
    ([⟨3, 5, CompactValue.nopayload⟩, ⟨8, 5, CompactValue.nopayload⟩] :
        List ThriftField).map ThriftField.id
      = specFieldIds 0
          ([CompactField.mk 0x35 none .nopayload,
            CompactField.mk 0x55 none .nopayload].map
            fun f => (f.fieldHeader, f.extendedDelta)) :=
  C7_field_ids.1 _ _ (by rfl)

/-- Unfolding lemmas for `readColumnLoop` on each stream shape. -/
theorem readColumnLoop_nil (snappy : List Nat → Option (List Nat))
    (meta : ColumnMetaData) (schema : SchemaElement) (n : Nat) (t : Int)
    (values : List PValue) :
    readColumnLoop snappy meta schema [] n t values = values := by
  rw [readColumnLoop.eq_def]
  split <;> rfl

theorem readColumnLoop_fail (snappy : List Nat → Option (List Nat))
    (meta : ColumnMetaData) (schema : SchemaElement) (rest : List PageItem)
    (n : Nat) (t : Int) (values : List PValue) :
    readColumnLoop snappy meta schema (PageItem.fail :: rest) n t values = values := by
  rw [readColumnLoop.eq_def]
  split <;> rfl

theorem readColumnLoop_page (snappy : List Nat → Option (List Nat))
    (meta : ColumnMetaData) (schema : SchemaElement) (h : PageHeader)
    (body : List Nat) (rest : List PageItem) (n : Nat) (t : Int)
    (values : List PValue) :
    readColumnLoop snappy meta schema (PageItem.page h body :: rest) n t values
      = if n < 100 ∧ t < meta.numValues then
          if h.compressedSize ≤ 0 then values
          else
            let step := pageStep snappy meta schema h body values t
            if meta.numValues ≤ step.2 then step.1
            else readColumnLoop snappy meta schema rest (n + 1) step.2 step.1
        else values := by
  rw [readColumnLoop.eq_def]

/-- The page-header fallback rewrite is invisible to the page decode: running
`pageBatch` on an already-adjusted header gives the same result. -/
theorem pageBatch_adjust (snappy : List Nat → Option (List Nat))
    (meta : ColumnMetaData) (schema : SchemaElement) (h : PageHeader)
    (body : List Nat) :
    pageBatch snappy meta schema (adjustHeader meta h) body
      = pageBatch snappy meta schema h body := by
  unfold pageBatch adjustHeader
  by_cases hnv : h.numValues = 0 <;>
    by_cases henc : h.encoding = 0 ∧ meta.encodings ≠ [] <;>
      simp [hnv, henc]

/-- C10: a decoded page header with `num_values` 0 is treated as declaring
the whole chunk's `num_values`, and an encoding 0 (PLAIN) is replaced by the
first encoding listed in the chunk metadata when that list is non-empty —
the loop behaves exactly as if the header had been rewritten by
`adjustHeader` (general part); and a page header whose nested
data-page-header struct lacks the `num_values`/`encoding` fields decodes to
0 for both, so "absent" and "zero" coincide (concrete part). -/
theorem C10_header_defaults :
    (∀ (snappy : List Nat → Option (List Nat)) (meta : ColumnMetaData)
        (schema : SchemaElement) (h : PageHeader) (body : List Nat)
        (rest : List PageItem) (n : Nat) (t : Int) (values : List PValue),
        readColumnLoop snappy meta schema (PageItem.page h body :: rest) n t values
          = readColumnLoop snappy meta schema
              (PageItem.page (adjustHeader meta h) body :: rest) n t values)
    ∧ decodePageHeader [CompactField.mk 0x5C none (CompactValue.structV [])]
        = some (0, 0, 0, 0, 0) := by
  constructor
  · intro snappy meta schema h body rest n t values
    rw [readColumnLoop_page, readColumnLoop_page]
    have hcs : (adjustHeader meta h).compressedSize = h.compressedSize := rfl
    have hps : pageStep snappy meta schema (adjustHeader meta h) body values t
        = pageStep snappy meta schema h body values t := by
      unfold pageStep
      rw [show (adjustHeader meta h).pageType = h.pageType from rfl, pageBatch_adjust]
    rw [hcs, hps]
  · rfl

/-- C9: a rejected speculative level-decode attempt leaves the buffer
untouched: when neither the repetition-level attempt nor the
definition-level attempt is accepted, the buffer handed to the value decoder
by `parseDataPageWithEncoding` is exactly the original page bytes. -/
theorem C9_rejected_frame (data : List Nat) (numValues : Int)
    (repetitionType : Option Int) (maxDefinitionLevel : Nat)
    (hrep : repAccepted data numValues repetitionType = false)
    (hdef : defAccepted data numValues repetitionType maxDefinitionLevel = false) :
    stripLevels data numValues repetitionType maxDefinitionLevel = data := by
  unfold repAccepted at hrep
  rw [decide_eq_false_iff_not] at hrep
  have hr : repStage data numValues repetitionType = data := by
    unfold repStage
    split
    · rename_i h2
      cases heq : decodeRLELevels data numValues 1 with
      | none => rfl
      | some p => exact absurd ⟨h2, by rw [heq]; simp⟩ hrep
    · rfl
  rw [stripLevels, hr]
  unfold defStage
  unfold defAccepted at hdef
  split
  · rename_i h0
    rw [if_pos h0] at hdef
    cases heq : decodeRLELevels data numValues 1 with
    | none => rfl
    | some p =>
      rw [heq] at hdef
      obtain ⟨l, rem⟩ := p
      simp only [decide_eq_false_iff_not] at hdef
      simp [hdef]
  · rename_i h0
    rw [if_neg h0] at hdef
    split
    · rename_i hm
      split
      · rename_i hlen
        rw [if_pos ⟨hm, hlen⟩] at hdef
        simp only [] at hdef ⊢
        by_cases hel : 0 < le32 (List.take 4 data) ∧ le32 (List.take 4 data) < data.length ∧
            le32 (List.take 4 data) < 10000
        · rw [if_pos hel] at hdef ⊢
          cases heq : decodeRLELevels data numValues maxDefinitionLevel with
          | none => rfl
          | some p =>
            obtain ⟨l, rem⟩ := p
            have hd2 : ¬(l ≠ [] ∧ levelsAllValid l maxDefinitionLevel = true) := by
              intro hc
              rw [heq] at hdef
              simp [hc] at hdef
            simp [hd2]
        · rw [if_neg hel] at hdef ⊢
          simp only [decide_eq_false_iff_not] at hdef
          simp [hdef]
      · rfl
    · rfl

theorem C9_rejected_frame_witness :
    stripLevels [5, 6] 1 none 1 = [5, 6] :=
  C9_rejected_frame [5, 6] 1 none 1 (by decide) (by decide)

/-- C3 (counterexample): a chunk declaring `num_values = 1` whose single
page header declares 3 values returns all 3 decoded values — the accumulated
count is only checked between pages, so a single page can push the result
past the chunk's declared `num_values`. -/
theorem C3_counterexample :
    readColumnValues (fun _ => none)
        { metaData := some { type := 1, numValues := 1 } } { type := 1 }
        [PageItem.page ⟨0, 12, 12, 3, 0⟩ [1, 0, 0, 0, 2, 0, 0, 0, 3, 0, 0, 0]]
      = some [PValue.i32 1, PValue.i32 2, PValue.i32 3] := by
  decide

/-- C4 (counterexample): a failure decoding one page does NOT terminate the
read loop.  The first page (DELTA encoding, body too short: its value decode
errors) contributes nothing, but the loop continues and returns the second
page's value — under the claim the result would have been the values
accumulated before the failing page, i.e. the empty list. -/
theorem C4_counterexample :
    readColumnValues (fun _ => none)
        { metaData := some { type := 1, numValues := 2 } } { type := 1 }
        [PageItem.page ⟨0, 4, 4, 1, 5⟩ [0, 0, 0, 0],
          PageItem.page ⟨0, 4, 4, 1, 0⟩ [7, 0, 0, 0]]
      = some [PValue.i32 7] := by
  decide


/-- Loop invariant behind the amended C3 bound: starting from an accumulator
whose length equals the running count, the loop result is never longer than
the larger of the starting length and `num_values - 1 + B`, where `B` bounds
the batch of every page in the stream (each batch is appended only while the
count is still below `num_values`). -/
theorem readColumnLoop_length_le (snappy : List Nat → Option (List Nat))
    (meta : ColumnMetaData) (schema : SchemaElement) (B : Int) :
    ∀ (stream : List PageItem) (n : Nat) (values : List PValue),
      (∀ h body, PageItem.page h body ∈ stream →
        ((pageBatch snappy meta schema h body).1.length : Int) ≤ B) →
      ((readColumnLoop snappy meta schema stream n (values.length : Int)
          values).length : Int)
        ≤ max (values.length : Int) (meta.numValues - 1 + B) := by
  intro stream
  induction stream with
  | nil =>
    intro n values hB
    rw [readColumnLoop_nil]
    exact le_max_left _ _
  | cons item rest ih =>
    intro n values hB
    cases item with
    | fail =>
      rw [readColumnLoop_fail]
      exact le_max_left _ _
    | page h body =>
      rw [readColumnLoop_page]
      split
      · rename_i hguard
        split
        · exact le_max_left _ _
        · rename_i hcs
          have hB' : ∀ h' body', PageItem.page h' body' ∈ rest →
              ((pageBatch snappy meta schema h' body').1.length : Int) ≤ B := by
            intro h' body' hm
            exact hB h' body' (List.mem_cons_of_mem _ hm)
          have hBr : ((pageBatch snappy meta schema h body).1.length : Int) ≤ B :=
            hB h body (List.mem_cons_self _ _)
          have hvlen : ((values.length : Int)) < meta.numValues := hguard.2
          simp only []
          by_cases hpt : h.pageType = 0
          · by_cases hok : (pageBatch snappy meta schema h body).2 = false ∧
                (pageBatch snappy meta schema h body).1 ≠ []
            · have hstep : pageStep snappy meta schema h body values (values.length : Int)
                  = (values ++ (pageBatch snappy meta schema h body).1,
                      (values.length : Int) +
                        ((pageBatch snappy meta schema h body).1.length : Int)) := by
                simp [pageStep, hpt, hok]
              rw [hstep]
              have hlen2 : (((values ++ (pageBatch snappy meta schema h body).1).length : Nat) : Int)
                  = (values.length : Int) +
                      ((pageBatch snappy meta schema h body).1.length : Int) := by
                push_cast [List.length_append]
                ring
              split
              · refine le_trans ?_ (le_max_right _ _)
                rw [hlen2]
                omega
              · rw [← hlen2]
                refine le_trans (ih (n + 1) _ hB') (max_le ?_ (le_max_right _ _))
                refine le_trans ?_ (le_max_right _ _)
                rw [hlen2]
                omega
            · have hstep : pageStep snappy meta schema h body values (values.length : Int)
                  = (values, (values.length : Int)) := by
                unfold pageStep
                rw [if_pos hpt, if_neg hok]
              rw [hstep]
              split
              · exact le_max_left _ _
              · exact ih (n + 1) values hB'
          · have hstep : pageStep snappy meta schema h body values (values.length : Int)
                = (values, (values.length : Int)) := by
              unfold pageStep
              rw [if_neg hpt]
            rw [hstep]
            split
            · exact le_max_left _ _
            · exact ih (n + 1) values hB'
      · exact le_max_left _ _

/-- C3 (amended): the accumulated count is only compared against the chunk's
`num_values` between pages, so the result of `readColumnValues` can exceed
`num_values` — but only by the final page's contribution: whenever `B`
bounds every single page batch of the stream, the result holds at most
`max 0 (num_values - 1 + B)` values. -/
theorem C3_amended (snappy : List Nat → Option (List Nat)) (chunk : ColumnChunk)
    (meta : ColumnMetaData) (schema : SchemaElement) (stream : List PageItem)
    (B : Int) (vs : List PValue)
    (hmeta : chunk.metaData = some meta)
    (hB : ∀ h body, PageItem.page h body ∈ stream →
      ((pageBatch snappy meta schema h body).1.length : Int) ≤ B)
    (hvs : readColumnValues snappy chunk schema stream = some vs) :
    (vs.length : Int) ≤ max 0 (meta.numValues - 1 + B) := by
  unfold readColumnValues at hvs
  rw [hmeta] at hvs
  simp only [Option.some.injEq] at hvs
  subst hvs
  have := readColumnLoop_length_le snappy meta schema B stream 0 [] hB
  simpa using this

theorem C3_amended_witness :
    (([PValue.i32 1, PValue.i32 2, PValue.i32 3] : List PValue).length : Int)
      ≤ max 0 (({ type := 1, numValues := 1 } : ColumnMetaData).numValues - 1 + 3) :=
  C3_amended (fun _ => none) { metaData := some { type := 1, numValues := 1 } }
    { type := 1, numValues := 1 } { type := 1 }
    [PageItem.page ⟨0, 12, 12, 3, 0⟩ [1, 0, 0, 0, 2, 0, 0, 0, 3, 0, 0, 0]] 3
    [PValue.i32 1, PValue.i32 2, PValue.i32 3] rfl
    (by
      intro h body hm
      rw [List.mem_singleton] at hm
      injection hm with h1 h2
      subst h1
      subst h2
      decide)
    (by decide)

/-- C4 (amended): only a header failure (or stream end, or a nonpositive
`compressed_page_size`) terminates the page loop.  A DATA_PAGE whose value
decode fails (or yields no values) merely contributes nothing — the loop
proceeds to the next page with the accumulator unchanged; and the call never
surfaces an error as long as the chunk carries metadata. -/
theorem C4_amended (snappy : List Nat → Option (List Nat)) (meta : ColumnMetaData)
    (schema : SchemaElement) (h : PageHeader) (body : List Nat)
    (rest : List PageItem) (n : Nat) (t : Int) (values : List PValue)
    (hn : n < 100) (ht : t < meta.numValues) (hcs : 0 < h.compressedSize)
    (hpt : h.pageType = 0)
    (hfail : (pageBatch snappy meta schema h body).2 = true ∨
      (pageBatch snappy meta schema h body).1 = []) :
    readColumnLoop snappy meta schema (PageItem.page h body :: rest) n t values
      = readColumnLoop snappy meta schema rest (n + 1) t values
    ∧ ∀ (chunk : ColumnChunk) (stream : List PageItem),
        chunk.metaData.isSome → (readColumnValues snappy chunk schema stream).isSome := by
  constructor
  · rw [readColumnLoop_page]
    rw [if_pos ⟨hn, ht⟩, if_neg (by omega)]
    have hstep : pageStep snappy meta schema h body values t = (values, t) := by
      unfold pageStep
      rw [if_pos hpt, if_neg ?_]
      intro hc
      rcases hfail with hf | hf
      · rw [hf] at hc
        exact absurd hc.1 (by simp)
      · exact hc.2 hf
    simp only [hstep]
    rw [if_neg (by omega)]
  · intro chunk stream hsome
    unfold readColumnValues
    cases hmeta : chunk.metaData with
    | none => rw [hmeta] at hsome; simp at hsome
    | some m => simp

theorem C4_amended_witness :
    readColumnLoop (fun _ => none) { type := 1, numValues := 2 } { type := 1 }
        (PageItem.page ⟨0, 4, 4, 1, 5⟩ [0, 0, 0, 0] ::
          [PageItem.page ⟨0, 4, 4, 1, 0⟩ [7, 0, 0, 0]]) 0 0 []
      = readColumnLoop (fun _ => none) { type := 1, numValues := 2 } { type := 1 }
          [PageItem.page ⟨0, 4, 4, 1, 0⟩ [7, 0, 0, 0]] 1 0 [] :=
  (C4_amended (fun _ => none) { type := 1, numValues := 2 } { type := 1 }
    ⟨0, 4, 4, 1, 5⟩ [0, 0, 0, 0] [PageItem.page ⟨0, 4, 4, 1, 0⟩ [7, 0, 0, 0]]
    0 0 [] (by decide) (by decide) (by decide) (by decide)
    (Or.inl (by decide))).1

/-- Helper for C8: the block loop exits immediately on an exhausted source. -/
theorem decodeRLEBytesAux_nil (numValues : Int) (bitWidth : Nat) (dst : List Nat) :
    decodeRLEBytesAux numValues bitWidth [] dst = (dst, false) := by
  rw [decodeRLEBytesAux.eq_def]
  rw [dif_pos (Or.inl rfl)]

/-- C8 (counterexample): the 16,777,216-value cap is checked against the
block header's count field BEFORE the `*8` expansion of bit-packed mode, so
a bit-packed block can materialize more than the cap without an error: the
header varint `4194307` (count group `2097153`, bit-packed) at `bitWidth = 0`
produces `2097153 * 8 = 16777224` zero-valued levels from NO payload bytes,
and the call returns them with no error. -/
theorem C8_counterexample :
    (decodeRLEBytes [0x83, 0x80, 0x80, 0x02] 16777300 0).2 = false
    ∧ (decodeRLEBytes [0x83, 0x80, 0x80, 0x02] 16777300 0).1.length = 16777224 := by
  have hu : uvarint [0x83, 0x80, 0x80, 0x02] = (4194307, 4) := by decide
  have haux : decodeRLEBytesAux 16777300 0 [0x83, 0x80, 0x80, 0x02] []
      = (List.replicate 16777224 0, false) := by
    rw [decodeRLEBytesAux.eq_def]
    rw [dif_neg (by simp)]
    simp only [hu]
    rw [dif_neg (by decide), dif_neg (by decide)]
    norm_num
    rw [show (4194307 : Nat) >>> 1 = 2097153 by decide]
    rw [if_neg (by decide)]
    norm_num [decodeBitPackedBytes]
    exact decodeRLEBytesAux_nil 16777300 0 (List.replicate 16777224 0)
  have hr : decodeRLEBytes [0x83, 0x80, 0x80, 0x02] 16777300 0
      = (List.replicate 16777224 0, false) := by
    unfold decodeRLEBytes
    rw [if_neg (by omega)]
    simp only [haux]
    rw [if_neg (by simp)]
    rw [if_neg (by rw [List.length_replicate]; norm_num)]
  rw [hr]
  exact ⟨rfl, by rw [List.length_replicate]⟩

/-- C8 (amended): the cap applies to the header's raw count field
(`u >> 1`): any block whose header claims a count above 16,777,216 makes the
decode call fail with an error before producing values — but in bit-packed
mode the produced value count is `count * 8`, which can reach
`8 * 16,777,216` values from a single block without tripping the cap (see
the counterexample). -/
theorem C8_amended (src : List Nat) (numValues : Int) (bitWidth : Nat)
    (u : Nat) (n : Int)
    (hbw : bitWidth ≤ 8) (hsrc : src ≠ []) (hnv : 0 < numValues)
    (hu : uvarint src = (u, n)) (hn : ¬n = 0) (hn2 : ¬n < 0)
    (hcap : 16777216 < u >>> 1) :
    decodeRLEBytes src numValues bitWidth = ([], true) := by
  unfold decodeRLEBytes
  rw [if_neg (by omega)]
  have haux : decodeRLEBytesAux numValues bitWidth src [] = ([], true) := by
    rw [decodeRLEBytesAux.eq_def]
    rw [dif_neg (by
      intro hor
      rcases hor with hh | hh
      · exact hsrc hh
      · exact hh (by simpa using hnv))]
    simp only [hu]
    rw [dif_neg hn, dif_neg hn2]
    rw [if_pos hcap]
  rw [haux]
  rfl

theorem C8_amended_witness :
    decodeRLEBytes [0xFF, 0xFF, 0xFF, 0xFF, 0x00] 4 1 = ([], true) :=
  C8_amended [0xFF, 0xFF, 0xFF, 0xFF, 0x00] 4 1 268435455 5 (by decide)
    (by decide) (by decide) (by decide) (by decide) (by decide) (by decide)

end KaitaiParquet
